import Mathlib

/-!
Verification development for the `mcp-skill-hub` skill-catalog system.

This file gives a shallow embedding of the core of the repository:

* `MarkdownSkillParser.FRONTMATTER_PATTERN` matching (an operational model of
  the Python regex `^---\s*\n(.*?)\n---\s*\n(.*)$` with `DOTALL | MULTILINE`,
  compiled with `re.match`);
* `SkillParser.validate_folder_structure` (parsers/base.py);
* `MarkdownSkillParser.parse` (parsers/markdown.py), over a model of the
  file-system tree and a model of `yaml.safe_load` restricted to the
  block-mapping-of-plain-scalars subset exercised here;
* `Skill.validate_skill` (models/skill.py) and the pydantic field validators;
* `SkillScanner.scan` (scanner.py);
* `SkillRepository` (storage/repository.py);
* the debounce discipline of `SkillFileHandler` (watcher.py) as a timed
  transition system, and the `SkillWatcher.start`/`is_watching` state machine.

Paths are modelled as lists of components; machine file systems as finite
trees; Python `dict`s as insertion-ordered association lists; time as `ℚ`.
-/

namespace McpSkills

/-- Python's `\s` character class (`re`, ASCII range): space, tab, newline,
carriage return, vertical tab, form feed. -/
def isPySpace (c : Char) : Bool :=
  c = ' ' || c = '\t' || c = '\n' || c = '\r' || c = '\x0b' || c = '\x0c'

/-- Python `str.strip()` on a list of characters: drop leading and trailing
whitespace. -/
def pyStripList (l : List Char) : List Char :=
  ((l.dropWhile isPySpace).reverse.dropWhile isPySpace).reverse

/-- Python `str.strip()`. -/
def pyStrip (s : String) : String :=
  String.mk (pyStripList s.toList)

/-- `str.startswith(pre)`. -/
def strStartsWith (s pre : String) : Bool :=
  pre.toList.isPrefixOf s.toList

/-- Split a character list on a separator character. -/
def splitOnChar (sep : Char) : List Char → List (List Char)
  | [] => [[]]
  | c :: rest =>
    if c = sep then [] :: splitOnChar sep rest
    else
      match splitOnChar sep rest with
      | [] => [[c]]
      | h :: t => (c :: h) :: t

/-- `str.split(sep)` for a one-character separator. -/
def strSplitOnChar (sep : Char) (s : String) : List String :=
  (splitOnChar sep s.toList).map String.mk

/-- ASCII `str.lower()` on one character. -/
def pyCharLower (c : Char) : Char :=
  if 'A' ≤ c ∧ c ≤ 'Z' then Char.ofNat (c.toNat + 32) else c

/-- `str.lower()` (ASCII range). -/
def pyLower (s : String) : String :=
  String.mk (s.toList.map pyCharLower)

/-- Decimal digit run to a number; `none` if empty or non-digit. -/
def decDigits (l : List Char) : Option Nat :=
  match l with
  | [] => none
  | _ =>
    l.foldl
      (fun acc c =>
        match acc with
        | none => none
        | some n =>
          if '0' ≤ c ∧ c ≤ '9' then some (n * 10 + (c.toNat - 48)) else none)
      (some 0)

/-- Integer recognition for plain YAML scalars (optional sign, decimal). -/
def strToIntSubset (s : String) : Option Int :=
  match s.toList with
  | '-' :: rest => (decDigits rest).map (fun n => -(n : Int))
  | l => (decDigits l).map (fun n => (n : Int))

/-- Values produced by `yaml.safe_load` on the subset of YAML this
development needs: strings, integers, booleans, sequences, string-keyed
mappings, and null. -/
inductive YVal : Type where
  | str (v : String)
  | int (v : Int)
  | bool (v : Bool)
  | list (vs : List YVal)
  | map (kvs : List (String × YVal))
  | null

/-- Python truthiness of a `YVal` (empty string, 0, False, empty
containers and None are falsy). -/
def YVal.truthy : YVal → Bool
  | .str v => v ≠ ""
  | .int v => v ≠ 0
  | .bool v => v
  | .list vs => ¬ vs.isEmpty
  | .map kvs => ¬ kvs.isEmpty
  | .null => false

/-- Python `str()` rendering of a scalar `YVal`, as used inside the
f-string of `_parse_dependencies`. -/
def YVal.pyRender : YVal → String
  | .str v => v
  | .int v => toString v
  | .bool v => if v then "True" else "False"
  | .list _ => "<list>"
  | .map _ => "<dict>"
  | .null => "None"

/-! ### The frontmatter regex

Operational model of
`re.compile(r"^---\s*\n(.*?)\n---\s*\n(.*)$", re.DOTALL | re.MULTILINE).match(content)`.

With `DOTALL` the trailing `(.*)$` always succeeds and consumes the rest of
the string, so a match is determined by: the literal `---` at position 0;
the greedy `\s*\n` (which, with backtracking, consumes a whitespace run up
to a contained newline, preferring the rightmost such newline); the lazy
`(.*?)` (shortest block such that `\n---\s*\n` follows); and the second
greedy `\s*\n`. -/

/-- Greedy `\s*\n`: succeeds iff the list starts with a whitespace run whose
last consumed character is a newline; backtracking prefers the rightmost
newline inside the run. Returns the remainder after that newline. -/
def wsNlGreedy : List Char → Option (List Char)
  | [] => none
  | c :: rest =>
    if isPySpace c then
      match wsNlGreedy rest with
      | some r => some r
      | none => if c = '\n' then some rest else none
    else none

/-- The closing `---\s*\n` tried right after a candidate newline: three
dashes then the greedy `\s*\n`. -/
def close3 : List Char → Option (List Char)
  | c1 :: c2 :: c3 :: tail =>
    if c1 = '-' ∧ c2 = '-' ∧ c3 = '-' then wsNlGreedy tail else none
  | _ => none

/-- Lazy `(.*?)\n---\s*\n`: scanning left to right, the first position where
`\n---` occurs followed by a successful greedy `\s*\n` closes the block.
Returns (block, remainder-after-the-closing-delimiter-line). -/
def findClose : List Char → Option (List Char × List Char)
  | [] => none
  | c :: rest =>
    if c = '\n' then
      match close3 rest with
      | some g2 => some ([], g2)
      | none => (findClose rest).map (fun p => (c :: p.1, p.2))
    else (findClose rest).map (fun p => (c :: p.1, p.2))

/-- The part of the pattern after the leading `---`: greedy `\s*\n` (trying
newline positions inside the whitespace run from rightmost to leftmost),
then `findClose`. -/
def openAux : List Char → Option (List Char × List Char)
  | [] => none
  | c :: rest =>
    if isPySpace c then
      match openAux rest with
      | some res => some res
      | none => if c = '\n' then findClose rest else none
    else none

/-- `FRONTMATTER_PATTERN.match`: returns `(group 1, group 2)` — the YAML
block and the text after the closing delimiter line. -/
def frontmatterMatch (content : String) : Option (String × String) :=
  match content.toList with
  | c1 :: c2 :: c3 :: rest =>
    if c1 = '-' ∧ c2 = '-' ∧ c3 = '-' then
      match openAux rest with
      | some (g1, g2) => some (String.mk g1, String.mk g2)
      | none => none
    else none
  | _ => none

/-! ### File-system model -/

/-- A file-system entry: a regular file with text content, or a directory
with named children (in arbitrary on-disk order). -/
inductive FSEntry : Type where
  | file (content : String)
  | dir (children : List (String × FSEntry))

/-- Python-`dict`-style lookup in an association list (first match). -/
def dictGet {α : Type} : List (String × α) → String → Option α
  | [], _ => none
  | (k0, v0) :: rest, k => if k0 = k then some v0 else dictGet rest k

/-- Python-`dict`-style insert/update: updating an existing key keeps its
position; a new key is appended at the end. -/
def dictInsert {α : Type} : List (String × α) → String → α → List (String × α)
  | [], k, v => [(k, v)]
  | (k0, v0) :: rest, k, v =>
    if k0 = k then (k0, v) :: rest else (k0, v0) :: dictInsert rest k v

/-- Resolve a path (list of components) relative to an entry. -/
def FSEntry.findAt : FSEntry → List String → Option FSEntry
  | e, [] => some e
  | .file _, _ :: _ => none
  | .dir kids, n :: rest =>
    match dictGet kids n with
    | none => none
    | some e => FSEntry.findAt e rest

/-- The world a component operates in: the skills root path and the entry
found there (`none` when the root path does not exist on disk). -/
structure Ctx : Type where
  root : List String
  tree : Option FSEntry

/-- Entry at an absolute path; only paths under the root are populated. -/
def Ctx.entryAt (ctx : Ctx) (p : List String) : Option FSEntry :=
  if ctx.root.isPrefixOf p then
    match ctx.tree with
    | none => none
    | some t => t.findAt (p.drop ctx.root.length)
  else none

/-- `Path.exists()`. -/
def pathExists (ctx : Ctx) (p : List String) : Bool :=
  (ctx.entryAt p).isSome

/-- `Path.is_dir()`. -/
def pathIsDir (ctx : Ctx) (p : List String) : Bool :=
  match ctx.entryAt p with
  | some (.dir _) => true
  | _ => false

/-- `Path.is_file()`. -/
def pathIsFile (ctx : Ctx) (p : List String) : Bool :=
  match ctx.entryAt p with
  | some (.file _) => true
  | _ => false

/-- `Path.read_text()`: the content of a regular file, `None` (I/O failure)
otherwise. -/
def readText (ctx : Ctx) (p : List String) : Option String :=
  match ctx.entryAt p with
  | some (.file c) => some c
  | _ => none

/-! ### PathClassifier: `SkillParser.validate_folder_structure` -/

/-- `SkillScanner.IGNORED_FOLDERS` (scanner.py): system and hidden folder
names that never hold a skill. Membership is the only operation used. -/
def IGNORED_FOLDERS : List String :=
  ["__pycache__", "node_modules", ".git", ".vscode", ".idea",
   ".pytest_cache", ".mypy_cache", ".ruff_cache", "venv", ".venv",
   "env", ".env"]

/-- Last component of a path (`Path.name`); empty for the empty path. -/
def pathName (p : List String) : String := p.getLastD ""

/-- `SkillParser.validate_folder_structure` (parsers/base.py): the six
checks in source order, returning `(is_valid, error_message)` with the
first applicable reason. Note that the source checks hidden (`.`) and
`IGNORED_FOLDERS` names, but has no check for a leading underscore. -/
def validate_folder_structure (ctx : Ctx) (skill_file : List String) :
    Bool × Option String :=
  let folder := skill_file.dropLast
  if pathName skill_file ≠ "SKILL.md" then
    (false, some "Skill file must be named SKILL.md")
  else if folder = ctx.root then
    (false, some "SKILL.md cannot be in the root skills directory")
  else if folder.dropLast ≠ ctx.root then
    (false, some "Skill folders must be direct children of the skills directory")
  else if strStartsWith (pathName folder) "." then
    (false, some "Hidden skill folders are not allowed")
  else if pathName folder ∈ IGNORED_FOLDERS then
    (false, some "System folders are not allowed for skills")
  else if ¬ pathExists ctx folder then
    (false, some "Skill folder does not exist")
  else if ¬ pathIsDir ctx folder then
    (false, some "Skill folder path is not a directory")
  else (true, none)

/-! ### `yaml.safe_load` on the simple-mapping subset

Modelled from the behaviour of `yaml.safe_load` on the subset of documents
this development feeds it: a block mapping of plain scalar values, one
`key: value` per line (or `key:` for null), with blank lines permitted; an
all-blank document loads as null. Anything else is treated as a load
failure (or non-mapping result), which `_parse_frontmatter` turns into a
raised `ValueError`, i.e. `none` here. -/

/-- Parse one plain scalar: integers and booleans are recognized, anything
else is a string (surrounding blanks stripped). -/
def yamlScalar (s : String) : YVal :=
  let t := pyStrip s
  if t = "true" then .bool true
  else if t = "false" then .bool false
  else
    match strToIntSubset t with
    | some n => .int n
    | none => .str t

/-- Parse one line of the block mapping. `none` for blank lines,
`some none` for lines a YAML mapping parse would reject. -/
def yamlLine (line : String) : Option (Option (String × YVal)) :=
  if pyStrip line = "" then none
  else
    match strSplitOnChar ':' line with
    | [] => some none
    | [_] => some none
    | key :: rest =>
      let v := String.intercalate ":" rest
      if v = "" then some (some (pyStrip key, .null))
      else if strStartsWith v " " then some (some (pyStrip key, yamlScalar v))
      else some none

/-- `yaml.safe_load` on the subset: `none` models a `YAMLError`. -/
def yamlSafeLoad (s : String) : Option YVal :=
  let lines := strSplitOnChar '\n' s
  let parsed := lines.filterMap yamlLine
  if parsed.length ≠ (lines.filter (fun l => pyStrip l ≠ "")).length then none
  else
    match parsed.mapM id with
    | none => none
    | some [] => some .null
    | some kvs => some (.map kvs)

/-- `MarkdownSkillParser._parse_frontmatter`: regex match, YAML load, null
becomes the empty mapping, a non-mapping result is an error. Returns
`(metadata, markdown_content)` or `none` for a raised `ValueError`. -/
def parse_frontmatter (content : String) :
    Option (List (String × YVal) × String) :=
  match frontmatterMatch content with
  | none => none
  | some (yamlContent, markdownContent) =>
    match yamlSafeLoad yamlContent with
    | none => none
    | some .null => some ([], markdownContent)
    | some (.map kvs) => some (kvs, markdownContent)
    | some _ => none

/-! ### The `Skill` model (models/skill.py) -/

/-- The `Skill` pydantic model: required identity/description/content and
the optional metadata fields with their defaults. -/
structure Skill : Type where
  name : String
  description : String
  content : String
  path : List String
  folder_path : List String
  version : String
  author : Option String
  created : Option String
  updated : Option String
  dependencies : List String
  tags : List String
  category : Option String
  complexity : Option String
  when_to_use : List String
  related_skills : List String
  has_examples : Bool
  example_files : List String
deriving DecidableEq

/-- `metadata.get(key, default)`. -/
def metaGetD (m : List (String × YVal)) (k : String) (d : YVal) : YVal :=
  (dictGet m k).getD d

/-- pydantic `str` field: only an actual string is accepted. -/
def asStr : YVal → Option String
  | .str s => some s
  | _ => none

/-- pydantic `Optional[str]` field: null becomes `None`. -/
def asOptStr : YVal → Option (Option String)
  | .null => some none
  | .str s => some (some s)
  | _ => none

/-- pydantic `list[str]` field. -/
def asStrList : YVal → Option (List String)
  | .list l => l.mapM asStr
  | _ => none

/-- pydantic `bool` field. -/
def asBool : YVal → Option Bool
  | .bool b => some b
  | _ => none

/-- Field validator `Skill.validate_complexity`: `None` or one of the three
enum values. -/
def complexityOk : Option String → Bool
  | none => true
  | some v => v = "beginner" || v = "intermediate" || v = "advanced"

/-- `MarkdownSkillParser._parse_dependencies`: a list passes through
unchanged; a mapping flattens each category to `"category:item"` strings
(one per item of a list value, one for a scalar value); any other shape
yields the empty list. -/
def parse_dependencies : YVal → List YVal
  | .list l => l
  | .map kvs =>
    kvs.flatMap (fun kv =>
      match kv.2 with
      | .list items => items.map (fun it => YVal.str (kv.1 ++ ":" ++ it.pyRender))
      | other => [YVal.str (kv.1 ++ ":" ++ other.pyRender)])
  | _ => []

/-- `Skill.validate_skill` (models/skill.py): collect all violations;
valid iff none. Error messages are abbreviated to their fixed prefixes. -/
def Skill.validate_skill (ctx : Ctx) (s : Skill) : Bool × List String :=
  let errors : List String :=
    (if s.name = "" then ["Skill name is required"] else []) ++
    (if s.description = "" then ["Skill description is required"] else []) ++
    (if s.content = "" then ["Skill content is required"] else []) ++
    (if ¬ pathExists ctx s.path then ["SKILL.md file not found"] else []) ++
    (if ¬ pathExists ctx s.folder_path then ["Skill folder not found"]
     else if ¬ pathIsDir ctx s.folder_path then
       ["Skill folder path is not a directory"]
     else []) ++
    (if s.path.dropLast ≠ s.folder_path then
       ["Invalid folder structure: SKILL.md must be directly in skill folder"]
     else []) ++
    (if s.has_examples ∧ s.example_files = [] then
       ["has_examples is True but no example_files specified"]
     else []) ++
    ((s.example_files.filter
        (fun f => ¬ pathExists ctx (s.folder_path ++ strSplitOnChar '/' f))).map
      (fun f => "Example file not found: " ++ f))
  (errors.isEmpty, errors)

/-- The `Skill(...)` constructor call in `parse`, including the pydantic
type validation of each field and the field validators (`validate_name`
strips and rejects empty, `validate_complexity`, `validate_folder_structure`
requires the folder to be a directory). A raised pydantic error is `none`. -/
def buildSkill (ctx : Ctx) (nameV descV : YVal) (content : String)
    (path folder_path : List String) (metadata : List (String × YVal))
    (deps : List YVal) : Option Skill :=
  match asStr nameV, asStr descV,
      asStr (metaGetD metadata "version" (.str "1.0.0")),
      asOptStr (metaGetD metadata "author" .null),
      asOptStr (metaGetD metadata "created" .null),
      asOptStr (metaGetD metadata "updated" .null),
      deps.mapM asStr,
      asStrList (metaGetD metadata "tags" (.list [])),
      asOptStr (metaGetD metadata "category" .null),
      asOptStr (metaGetD metadata "complexity" .null),
      asStrList (metaGetD metadata "when_to_use" (.list [])),
      asStrList (metaGetD metadata "related_skills" (.list [])),
      asBool (metaGetD metadata "has_examples" (.bool false)),
      asStrList (metaGetD metadata "example_files" (.list [])) with
  | some name0, some description, some version, some author, some created,
    some updated, some dependencies, some tags, some category,
    some complexity, some when_to_use, some related_skills,
    some has_examples, some example_files =>
    if pyStrip name0 = "" then none
    else if ¬ complexityOk complexity then none
    else if ¬ pathIsDir ctx folder_path then none
    else
      some { name := pyStrip name0, description := description,
             content := content, path := path, folder_path := folder_path,
             version := version, author := author, created := created,
             updated := updated, dependencies := dependencies, tags := tags,
             category := category, complexity := complexity,
             when_to_use := when_to_use, related_skills := related_skills,
             has_examples := has_examples, example_files := example_files }
  | _, _, _, _, _, _, _, _, _, _, _, _, _, _ => none

/-- `MarkdownSkillParser.parse` (parsers/markdown.py): folder-structure
validation, file read, frontmatter format check and parse, required-key
checks, dependency normalization, `Skill` construction, full structural
validation. Every failure returns `none` (the Python logs and returns
`None`; nothing escapes this boundary). -/
def MarkdownSkillParser.parse (ctx : Ctx) (path : List String) :
    Option Skill :=
  if ¬ (validate_folder_structure ctx path).1 then none
  else
    match readText ctx path with
    | none => none
    | some content =>
      match parse_frontmatter content with
      | none => none
      | some (metadata, markdownContent) =>
        let nameV := metaGetD metadata "name" .null
        let descV := metaGetD metadata "description" .null
        if ¬ nameV.truthy then none
        else if ¬ descV.truthy then none
        else
          let folder_path := path.dropLast
          let deps := parse_dependencies (metaGetD metadata "dependencies" (.list []))
          match buildSkill ctx nameV descV (pyStrip markdownContent)
              path folder_path metadata deps with
          | none => none
          | some skill =>
            if (skill.validate_skill ctx).1 then some skill else none

/-! ### Lexicographic string order

Python compares strings (and `Path`s of a common parent) by codepoint
lexicographic order; we define it as an executable Boolean comparator. -/

/-- Strict lexicographic order on character lists (codepoint order). -/
def listLtB : List Char → List Char → Bool
  | [], [] => false
  | [], _ :: _ => true
  | _ :: _, [] => false
  | a :: as, b :: bs =>
    if a < b then true else if b < a then false else listLtB as bs

/-- Strict lexicographic order on strings. -/
def strLtB (a b : String) : Bool := listLtB a.toList b.toList

/-- Lexicographic `≤` on strings. -/
def strLeB (a b : String) : Bool := Bool.not (strLtB b a)

/-- Keyed `≤` relation used for sorting by a string-valued key. -/
def keyLe {α : Type} (key : α → String) (a b : α) : Prop :=
  strLeB (key a) (key b) = true

/-- Keyed strict relation. -/
def keyLt {α : Type} (key : α → String) (a b : α) : Prop :=
  strLtB (key a) (key b) = true

instance {α : Type} (key : α → String) : DecidableRel (keyLe key) :=
  fun a b => instDecidableEqBool (strLeB (key a) (key b)) true

lemma listLtB_nil_nil : listLtB [] [] = false := rfl

lemma listLtB_nil_cons (y : Char) (bs : List Char) :
    listLtB [] (y :: bs) = true := rfl

lemma listLtB_cons_nil (x : Char) (as : List Char) :
    listLtB (x :: as) [] = false := rfl

lemma listLtB_cons_cons (x y : Char) (as bs : List Char) :
    listLtB (x :: as) (y :: bs) =
      if x < y then true else if y < x then false else listLtB as bs := rfl

lemma listLtB_trans : ∀ {a b c : List Char},
    listLtB a b = true → listLtB b c = true → listLtB a c = true := by
  intro a
  induction a with
  | nil =>
    intro b c hab hbc
    cases b with
    | nil => exact absurd hab (by rw [listLtB_nil_nil]; exact Bool.false_ne_true)
    | cons y bs =>
      cases c with
      | nil =>
        exact absurd hbc (by rw [listLtB_cons_nil]; exact Bool.false_ne_true)
      | cons z cs => exact listLtB_nil_cons z cs
  | cons x as ih =>
    intro b c hab hbc
    cases b with
    | nil => exact absurd hab (by rw [listLtB_cons_nil]; exact Bool.false_ne_true)
    | cons y bs =>
      cases c with
      | nil =>
        exact absurd hbc (by rw [listLtB_cons_nil]; exact Bool.false_ne_true)
      | cons z cs =>
        rw [listLtB_cons_cons] at hab hbc
        rw [listLtB_cons_cons]
        by_cases hxy : x < y
        · by_cases hyz : y < z
          · simp [lt_trans hxy hyz]
          · rw [if_neg hyz] at hbc
            by_cases hzy : z < y
            · rw [if_pos hzy] at hbc
              exact absurd hbc Bool.false_ne_true
            · have hyzeq : y = z := le_antisymm (not_lt.mp hzy) (not_lt.mp hyz)
              subst hyzeq
              simp [hxy]
        · rw [if_neg hxy] at hab
          by_cases hyx : y < x
          · rw [if_pos hyx] at hab
            exact absurd hab Bool.false_ne_true
          · have hxyeq : x = y := le_antisymm (not_lt.mp hyx) (not_lt.mp hxy)
            subst hxyeq
            rw [if_neg hxy] at hab
            by_cases hxz : x < z
            · simp [hxz]
            · rw [if_neg hxz] at hbc
              by_cases hzx : z < x
              · rw [if_pos hzx] at hbc
                exact absurd hbc Bool.false_ne_true
              · rw [if_neg hzx] at hbc
                rw [if_neg hxz, if_neg hzx]
                exact ih hab hbc

lemma listLtB_eq_of_not : ∀ {a b : List Char},
    listLtB a b = false → listLtB b a = false → a = b := by
  intro a
  induction a with
  | nil =>
    intro b hab _
    cases b with
    | nil => rfl
    | cons y bs =>
      rw [listLtB_nil_cons] at hab
      exact absurd hab.symm Bool.false_ne_true
  | cons x as ih =>
    intro b hab hba
    cases b with
    | nil =>
      rw [listLtB_nil_cons] at hba
      exact absurd hba.symm Bool.false_ne_true
    | cons y bs =>
      rw [listLtB_cons_cons] at hab hba
      by_cases hxy : x < y
      · rw [if_pos hxy] at hab
        exact absurd hab.symm Bool.false_ne_true
      · by_cases hyx : y < x
        · rw [if_pos hyx] at hba
          exact absurd hba.symm Bool.false_ne_true
        · have hxyeq : x = y := le_antisymm (not_lt.mp hyx) (not_lt.mp hxy)
          subst hxyeq
          simp only [if_neg hxy] at hab hba
          rw [ih hab hba]

lemma listLtB_irrefl : ∀ (a : List Char), listLtB a a = false := by
  intro a
  induction a with
  | nil => rfl
  | cons x xs ih => rw [listLtB_cons_cons, if_neg (lt_irrefl x), if_neg (lt_irrefl x), ih]

lemma listLtB_not_trans {a b c : List Char} (h₁ : listLtB b a = false)
    (h₂ : listLtB c b = false) : listLtB c a = false := by
  cases hv : listLtB c a
  · rfl
  · exfalso
    cases hbc : listLtB b c
    · have hcb : c = b := listLtB_eq_of_not h₂ hbc
      rw [hcb, h₁] at hv
      exact Bool.false_ne_true hv
    · have := listLtB_trans hbc hv
      rw [h₁] at this
      exact Bool.false_ne_true this

lemma strToList_inj {a b : String} (h : a.toList = b.toList) : a = b := by
  obtain ⟨la⟩ := a
  obtain ⟨lb⟩ := b
  have h2 : la = lb := by simpa [String.toList] using h
  rw [h2]

lemma strLeB_total (a b : String) : strLeB a b = true ∨ strLeB b a = true := by
  simp only [strLeB, Bool.not_eq_true']
  cases hab : strLtB a b
  · right
    rfl
  · left
    cases hba : strLtB b a
    · rfl
    · exfalso
      have := listLtB_trans hab hba
      rw [listLtB_irrefl] at this
      exact Bool.false_ne_true this

lemma strLeB_trans {a b c : String} (h₁ : strLeB a b = true)
    (h₂ : strLeB b c = true) : strLeB a c = true := by
  simp only [strLeB, Bool.not_eq_true'] at h₁ h₂ ⊢
  exact listLtB_not_trans h₁ h₂

lemma strLeB_ne_lt {a b : String} (h₁ : strLeB a b = true) (h₂ : a ≠ b) :
    strLtB a b = true := by
  simp only [strLeB, Bool.not_eq_true'] at h₁
  cases hab : strLtB a b
  · exfalso
    exact h₂ (strToList_inj (listLtB_eq_of_not hab h₁))
  · rfl

lemma strLtB_asymm {a b : String} (h₁ : strLtB a b = true)
    (h₂ : strLtB b a = true) : False := by
  have := listLtB_trans h₁ h₂
  rw [listLtB_irrefl] at this
  exact Bool.false_ne_true this

instance {α : Type} (key : α → String) : IsTotal α (keyLe key) :=
  ⟨fun a b => strLeB_total (key a) (key b)⟩

instance {α : Type} (key : α → String) : IsTrans α (keyLe key) :=
  ⟨fun _ _ _ h₁ h₂ => strLeB_trans h₁ h₂⟩

instance {α : Type} (key : α → String) : IsAntisymm α (keyLt key) :=
  ⟨fun _ _ h₁ h₂ => (strLtB_asymm h₁ h₂).elim⟩

/-- A `keyLe`-sorted list with pairwise-distinct keys is sorted for the
strict relation. -/
lemma pairwise_keyLt_of_sorted_nodup {α : Type} (key : α → String) :
    ∀ (l : List α), List.Sorted (keyLe key) l → (l.map key).Nodup →
      List.Pairwise (keyLt key) l := by
  intro l
  induction l with
  | nil =>
    intro _ _
    exact List.Pairwise.nil
  | cons a l ih =>
    intro hs hn
    rw [List.sorted_cons] at hs
    rw [List.map_cons, List.nodup_cons] at hn
    refine List.Pairwise.cons ?_ (ih hs.2 hn.2)
    intro b hb
    refine strLeB_ne_lt (hs.1 b hb) ?_
    intro he
    exact hn.1 (he ▸ List.mem_map_of_mem key hb)

/-- Sorting is canonical on lists with pairwise-distinct keys: any two
permutations sort to the same list. -/
lemma insertionSort_keyLe_eq_of_perm {α : Type} (key : α → String)
    {l₁ l₂ : List α} (hp : l₁.Perm l₂) (hn : (l₁.map key).Nodup) :
    List.insertionSort (keyLe key) l₁ = List.insertionSort (keyLe key) l₂ := by
  have hp₁ := List.perm_insertionSort (keyLe key) l₁
  have hp₂ := List.perm_insertionSort (keyLe key) l₂
  have hn₁ : ((List.insertionSort (keyLe key) l₁).map key).Nodup :=
    ((hp₁.map key).nodup_iff).mpr hn
  have hn₂ : ((List.insertionSort (keyLe key) l₂).map key).Nodup :=
    ((hp₂.map key).nodup_iff).mpr ((hp.map key).nodup_iff.mp hn)
  have hs₁ : List.Sorted (keyLt key) (List.insertionSort (keyLe key) l₁) :=
    pairwise_keyLt_of_sorted_nodup key _
      (List.sorted_insertionSort (keyLe key) l₁) hn₁
  have hs₂ : List.Sorted (keyLt key) (List.insertionSort (keyLe key) l₂) :=
    pairwise_keyLt_of_sorted_nodup key _
      (List.sorted_insertionSort (keyLe key) l₂) hn₂
  exact List.eq_of_perm_of_sorted (hp₁.trans (hp.trans hp₂.symm)) hs₁ hs₂

/-! ### Scanner (scanner.py) -/

/-- `SkillScanner._is_valid_skill_folder` on a directory's base name (the
`is_dir` part of the check is where the model consults the entry kind). -/
def is_valid_skill_folder_name (name : String) : Bool :=
  ¬ strStartsWith name "." && ¬ strStartsWith name "_" && name ∉ IGNORED_FOLDERS

/-- `SkillScanner._find_skill_file`: `SKILL.md` directly inside the folder,
existing and a regular file. Returns its content. -/
def find_skill_file (kids : List (String × FSEntry)) : Option String :=
  match dictGet kids "SKILL.md" with
  | some (.file c) => some c
  | _ => none

/-- The scan accumulator: the result dictionary plus the
`loaded`/`skipped`/`failed` tallies the source keeps in `stats`. -/
structure ScanState : Type where
  skills : List (String × Skill)
  loaded : Nat
  skipped : Nat
  failed : Nat
deriving DecidableEq

/-- One iteration of the `for item in items` loop of `SkillScanner.scan`,
parameterized by the parser function `P` (the scanner receives the parser
by injection). -/
def scanStep (P : List String → Option Skill) (root : List String)
    (st : ScanState) (child : String × FSEntry) : ScanState :=
  match child.2 with
  | .file _ =>
    if child.1 = "SKILL.md" then { st with skipped := st.skipped + 1 } else st
  | .dir kids =>
    if ¬ is_valid_skill_folder_name child.1 then
      { st with skipped := st.skipped + 1 }
    else
      match find_skill_file kids with
      | none => { st with skipped := st.skipped + 1 }
      | some _ =>
        match P (root ++ [child.1, "SKILL.md"]) with
        | none => { st with failed := st.failed + 1 }
        | some skill =>
          { st with skills := dictInsert st.skills skill.name skill,
                    loaded := st.loaded + 1 }

/-- `SkillScanner.scan` given the parser `P`, the root path and the entry
found at the root (`none` when the directory is missing): empty result when
the root is missing or not a directory, otherwise one pass over the
immediate children sorted by name (`sorted(self.skills_dir.iterdir())`:
paths of a common parent compare by base name). -/
def scanWith (P : List String → Option Skill) (root : List String)
    (tree : Option FSEntry) : ScanState :=
  match tree with
  | none => ⟨[], 0, 0, 0⟩
  | some (.file _) => ⟨[], 0, 0, 0⟩
  | some (.dir children) =>
    (List.insertionSort (keyLe Prod.fst) children).foldl
      (scanStep P root) ⟨[], 0, 0, 0⟩

/-- `SkillScanner.scan` with the concrete `MarkdownSkillParser`. -/
def SkillScanner.scan (ctx : Ctx) : ScanState :=
  scanWith (MarkdownSkillParser.parse ctx) ctx.root ctx.tree

/-! ### Repository (storage/repository.py) -/

/-- `SkillRepository`: the in-memory `_skills` dictionary. -/
structure SkillRepository : Type where
  skills : List (String × Skill)

/-- `SkillRepository.get`. -/
def SkillRepository.get (repo : SkillRepository) (name : String) :
    Option Skill :=
  dictGet repo.skills name

/-- `SkillRepository.get_all`: a fresh name-sorted snapshot
(`sorted(..., key=lambda s: s.name)`). -/
def SkillRepository.get_all (repo : SkillRepository) : List Skill :=
  List.insertionSort (keyLe Skill.name) (repo.skills.map Prod.snd)

/-- `SkillRepository.add`: validate first; a failure raises `ValueError`
(modelled by `Except.error`, the stored mapping untouched); on success
insert or overwrite by name. -/
def SkillRepository.add (ctx : Ctx) (repo : SkillRepository) (skill : Skill) :
    Except String SkillRepository :=
  let v := skill.validate_skill ctx
  if v.1 then
    Except.ok ⟨dictInsert repo.skills skill.name skill⟩
  else
    Except.error ("Cannot add invalid skill " ++ skill.name)

/-- `SkillRepository.remove`: delete by name, no-op when absent. -/
def SkillRepository.remove (repo : SkillRepository) (name : String) :
    SkillRepository :=
  ⟨repo.skills.filter (fun kv => kv.1 ≠ name)⟩

/-- Python string truthiness of an optional-argument value: `None` and the
empty string are both falsy, so `if query:` treats them alike. -/
def strProvided : Option String → Bool
  | none => false
  | some s => s ≠ ""

/-- Contiguous-substring test on character lists (`needle in hay`). -/
def subListAt (needle hay : List Char) : Bool :=
  if needle.isPrefixOf hay then true
  else
    match hay with
    | [] => false
    | _ :: rest => subListAt needle rest

/-- `query_lower in text.lower()`: substring containment. -/
def containsSub (hay needle : String) : Bool :=
  subListAt needle.toList hay.toList

/-- `SkillRepository.search`: the four sequential truthiness-guarded
filters of the source, then a name sort. -/
def SkillRepository.search (repo : SkillRepository)
    (query category tag complexity : Option String) : List Skill :=
  let results := repo.skills.map Prod.snd
  let results :=
    match query with
    | some q =>
      if q ≠ "" then
        results.filter (fun s =>
          containsSub (pyLower s.name) (pyLower q) ||
          containsSub (pyLower s.description) (pyLower q))
      else results
    | none => results
  let results :=
    match category with
    | some c => if c ≠ "" then results.filter (fun s => s.category = some c)
                else results
    | none => results
  let results :=
    match tag with
    | some t => if t ≠ "" then results.filter (fun s => t ∈ s.tags)
                else results
    | none => results
  let results :=
    match complexity with
    | some x => if x ≠ "" then results.filter (fun s => s.complexity = some x)
                else results
    | none => results
  List.insertionSort (keyLe Skill.name) results

/-! ### Watcher (watcher.py) -/

/-- `SkillWatcher` state relevant to `start`/`stop`/`is_watching`; the
observer thread is reduced to its presence. -/
structure SkillWatcher : Type where
  skills_dir : List String
  observer : Bool
  watching : Bool

/-- `SkillWatcher.start`: no-op when already running; no-op (and no state
transition) when the skills directory does not exist; otherwise schedule
the observer and mark running. Never raises. -/
def SkillWatcher.start (ctx : Ctx) (w : SkillWatcher) : SkillWatcher :=
  if w.watching then w
  else if ¬ pathExists ctx w.skills_dir then w
  else { w with observer := true, watching := true }

/-- `SkillWatcher.is_watching`. -/
def SkillWatcher.is_watching (w : SkillWatcher) : Bool := w.watching

/-! ### Debounce discipline (`SkillFileHandler`)

The handler keeps `_debounce_timers : dict[path, Timer]` under a lock; an
accepted notification cancels any pending timer for its path and starts a
fresh one with delay `D`; a timer that fires removes its entry and invokes
the callback once. We model this as a timed transition system processing
accepted notifications in time order: before handling a notification at
time `t`, every pending timer whose deadline has passed fires. -/

/-- Pending timers (path to absolute deadline) plus the sequence of
callback invocations so far. -/
structure DebState : Type where
  timers : List (String × ℚ)
  fired : List String
deriving DecidableEq

/-- Fire every pending timer whose deadline `d` satisfies `d ≤ t`: each
invokes the callback once and its entry is removed from the map. -/
def fireDue (t : ℚ) (st : DebState) : DebState :=
  { timers := st.timers.filter (fun e => ¬ e.2 ≤ t),
    fired := st.fired ++ (st.timers.filter (fun e => e.2 ≤ t)).map Prod.fst }

/-- `SkillFileHandler._handle_event` for an accepted notification on path
`p` at time `t`: past-due timers fire, then the path's timer (if any) is
cancelled and restarted with deadline `t + D`. -/
def handleEvent (D : ℚ) (st : DebState) (p : String) (t : ℚ) : DebState :=
  let st' := fireDue t st
  { st' with timers := dictInsert st'.timers p (t + D) }

/-- Process a time-ordered sequence of accepted notifications starting from
the idle handler. -/
def runEvents (D : ℚ) (evts : List (String × ℚ)) : DebState :=
  evts.foldl (fun st e => handleEvent D st e.1 e.2) ⟨[], []⟩

/-- Quiescence: all remaining timers eventually fire and are removed. -/
def settleAll (st : DebState) : DebState :=
  { timers := [], fired := st.fired ++ st.timers.map Prod.fst }

/-! ### Concrete fixtures -/

/-- Sentinel file of folder `alpha`: `{name:"alpha", description:"A"}`. -/
def alphaContent : String :=
  "---\nname: alpha\ndescription: A\n---\nAlpha body\n"

/-- Sentinel file of folder `beta`: `{name:"beta", description:"B"}`. -/
def betaContent : String :=
  "---\nname: beta\ndescription: B\n---\nBeta body\n"

/-- The tree of the spec's concrete scan example: folders `alpha` and
`beta`, a stray sentinel file directly in the root, and a `__pycache__`
folder that also contains one. -/
def tree7 : FSEntry :=
  .dir
    [("alpha", .dir [("SKILL.md", .file alphaContent)]),
     ("beta", .dir [("SKILL.md", .file betaContent)]),
     ("SKILL.md", .file "---\nname: stray\ndescription: S\n---\nBody\n"),
     ("__pycache__", .dir [("SKILL.md", .file alphaContent)])]

/-- Skills root holding `tree7`. -/
def ctx7 : Ctx := ⟨["skills"], some tree7⟩

/-- Root whose only skill folder is named `_private` and exists on disk. -/
def ctxUnderscore : Ctx :=
  ⟨["skills"], some (.dir [("_private", .dir [("SKILL.md", .file "x")])])⟩

/-- Root for the repository witness: folder `f` with a sentinel file. -/
def ctxRepo : Ctx :=
  ⟨["skills"], some (.dir [("f", .dir [("SKILL.md", .file "c")])])⟩

/-- A concrete valid record rooted in `ctxRepo`. -/
def skillW : Skill :=
  { name := "n", description := "d", content := "c",
    path := ["skills", "f", "SKILL.md"], folder_path := ["skills", "f"],
    version := "1.0.0", author := none, created := none, updated := none,
    dependencies := [], tags := [], category := none, complexity := none,
    when_to_use := [], related_skills := [], has_examples := false,
    example_files := [] }

/-! ### Dictionary lemmas -/

lemma dictGet_insert_self {α : Type} (d : List (String × α)) (k : String)
    (v : α) : dictGet (dictInsert d k v) k = some v := by
  induction d with
  | nil => simp [dictInsert, dictGet]
  | cons kv rest ih =>
    obtain ⟨k0, v0⟩ := kv
    by_cases h : k0 = k
    · simp [dictInsert, dictGet, h]
    · simp [dictInsert, dictGet, h, ih]

lemma dictGet_insert_other {α : Type} (d : List (String × α))
    (k k' : String) (v : α) (h : k' ≠ k) :
    dictGet (dictInsert d k v) k' = dictGet d k' := by
  have hk : ¬ k = k' := fun he => h he.symm
  induction d with
  | nil => simp [dictInsert, dictGet, hk]
  | cons kv rest ih =>
    obtain ⟨k0, v0⟩ := kv
    by_cases h0 : k0 = k
    · subst h0
      simp [dictInsert, dictGet, hk]
    · simp [dictInsert, dictGet, h0, ih]

/-- Modelled from the spec (§4.4 `search`), with the amendment the source
forces: a filter provided as the empty string counts as not provided
(the source guards each filter with Python truthiness). The record matches
iff it satisfies the conjunction of all provided filters: `query` is a
case-insensitive substring of name or description, `category` and
`complexity` match exactly, `tag` is a member of the tag list. -/
def searchMatches (query category tag complexity : Option String)
    (s : Skill) : Bool :=
  (match query with
   | none => true
   | some qv =>
     if qv = "" then true
     else
       containsSub (pyLower s.name) (pyLower qv) ||
       containsSub (pyLower s.description) (pyLower qv)) &&
  (match category with
   | none => true
   | some cv => if cv = "" then true else s.category = some cv) &&
  (match tag with
   | none => true
   | some tv => if tv = "" then true else tv ∈ s.tags) &&
  (match complexity with
   | none => true
   | some xv => if xv = "" then true else s.complexity = some xv)

/-- One truthiness-guarded filter stage equals one unconditional filter. -/
lemma filter_stage {α : Type} (o : Option String) (pp : String → α → Bool)
    (l : List α) :
    (match o with
     | some v => if v ≠ "" then l.filter (pp v) else l
     | none => l) =
    l.filter (fun a =>
      match o with
      | none => true
      | some v => if v = "" then true else pp v a) := by
  cases o with
  | none => simp
  | some v =>
    by_cases hv : v = ""
    · simp [hv]
    · simp [hv]

/-- A record of the C5 counterexample repository: its category is `None`. -/
def skillR : Skill :=
  { name := "r", description := "d", content := "c",
    path := ["skills", "r", "SKILL.md"], folder_path := ["skills", "r"],
    version := "1.0.0", author := none, created := none, updated := none,
    dependencies := [], tags := [], category := none, complexity := none,
    when_to_use := [], related_skills := [], has_examples := false,
    example_files := [] }

/-- Repository holding only `skillR`. -/
def repoR : SkillRepository := ⟨[("r", skillR)]⟩

/-! ### Scan fold lemmas -/

/-- Removing a middle element commutes with sorting, on lists with
pairwise-distinct keys. -/
lemma insertionSort_middle {α : Type} (key : α → String) (l₁ l₂ : List α)
    (x : α) (hn : ((l₁ ++ x :: l₂).map key).Nodup) :
    ∃ A B, List.insertionSort (keyLe key) (l₁ ++ x :: l₂) = A ++ x :: B ∧
      List.insertionSort (keyLe key) (l₁ ++ l₂) = A ++ B := by
  have hperm := List.perm_insertionSort (keyLe key) (l₁ ++ x :: l₂)
  have hx : x ∈ List.insertionSort (keyLe key) (l₁ ++ x :: l₂) :=
    hperm.symm.subset (by simp)
  obtain ⟨A, B, hAB⟩ := List.append_of_mem hx
  refine ⟨A, B, hAB, ?_⟩
  have hnodup_s :
      ((List.insertionSort (keyLe key) (l₁ ++ x :: l₂)).map key).Nodup :=
    ((hperm.map key).nodup_iff).mpr hn
  have hpl : List.Pairwise (keyLt key) (A ++ x :: B) := by
    rw [← hAB]
    exact pairwise_keyLt_of_sorted_nodup key _
      (List.sorted_insertionSort (keyLe key) _) hnodup_s
  have hsub : (A ++ B).Sublist (A ++ x :: B) :=
    List.Sublist.append_left (List.sublist_cons_self x B) A
  have hplAB : List.Pairwise (keyLt key) (A ++ B) := hpl.sublist hsub
  have hpermAB : (A ++ B).Perm (l₁ ++ l₂) := by
    have h1 : (x :: (A ++ B)).Perm (x :: (l₁ ++ l₂)) :=
      List.perm_middle.symm.trans ((hAB ▸ hperm).trans List.perm_middle)
    exact h1.cons_inv
  have hnAB : ((l₁ ++ l₂).map key).Nodup := by
    refine List.Nodup.sublist (List.Sublist.map key ?_) hn
    exact List.Sublist.append_left (List.sublist_cons_self x l₂) l₁
  have hs2 : List.Pairwise (keyLt key)
      (List.insertionSort (keyLe key) (l₁ ++ l₂)) :=
    pairwise_keyLt_of_sorted_nodup key _
      (List.sorted_insertionSort (keyLe key) _)
      (((List.perm_insertionSort (keyLe key) (l₁ ++ l₂)).map key).nodup_iff.mpr
        hnAB)
  exact List.eq_of_perm_of_sorted
    ((List.perm_insertionSort (keyLe key) (l₁ ++ l₂)).trans hpermAB.symm)
    hs2 hplAB

/-- No loop iteration reads the `failed` tally: bumping it beforehand
commutes with one step. -/
lemma scanStep_failed_shift (P : List String → Option Skill)
    (root : List String) (st : ScanState) (ch : String × FSEntry) :
    scanStep P root { st with failed := st.failed + 1 } ch =
      { scanStep P root st ch with
          failed := (scanStep P root st ch).failed + 1 } := by
  obtain ⟨nm, e⟩ := ch
  cases e with
  | file fc =>
    by_cases h : nm = "SKILL.md" <;> simp [scanStep, h]
  | dir kids =>
    by_cases h : is_valid_skill_folder_name nm = true
    · cases hf : find_skill_file kids with
      | none => simp [scanStep, h, hf]
      | some fc =>
        cases hp : P (root ++ [nm, "SKILL.md"]) with
        | none => simp [scanStep, h, hf, hp]
        | some skill => simp [scanStep, h, hf, hp]
    · simp [scanStep, h]

/-- Bumping the `failed` tally commutes with the whole scan loop. -/
lemma scanFold_failed_shift (P : List String → Option Skill)
    (root : List String) (l : List (String × FSEntry)) :
    ∀ st : ScanState,
      l.foldl (scanStep P root) { st with failed := st.failed + 1 } =
        { l.foldl (scanStep P root) st with
            failed := (l.foldl (scanStep P root) st).failed + 1 } := by
  induction l with
  | nil =>
    intro st
    rfl
  | cons ch l ih =>
    intro st
    rw [List.foldl_cons, List.foldl_cons, scanStep_failed_shift]
    exact ih (scanStep P root st ch)

/-- An eligible folder with a sentinel file whose parse fails contributes
exactly one `failed` tally and nothing else. -/
lemma scanStep_failing (P : List String → Option Skill) (root : List String)
    (st : ScanState) (fn : String) (fkids : List (String × FSEntry))
    (hvalid : is_valid_skill_folder_name fn = true)
    (hsent : (find_skill_file fkids).isSome = true)
    (hfail : P (root ++ [fn, "SKILL.md"]) = none) :
    scanStep P root st (fn, .dir fkids) =
      { st with failed := st.failed + 1 } := by
  obtain ⟨fc, hfc⟩ := Option.isSome_iff_exists.mp hsent
  simp [scanStep, hvalid, hfc, hfail]

/-! ### Decomposition of a successful frontmatter match -/

lemma wsNlGreedy_spec : ∀ (l r : List Char), wsNlGreedy l = some r →
    ∃ w, (∀ ch ∈ w, isPySpace ch = true) ∧ l = w ++ '\n' :: r := by
  intro l
  induction l with
  | nil =>
    intro r h
    simp [wsNlGreedy] at h
  | cons c rest ih =>
    intro r h
    simp only [wsNlGreedy] at h
    by_cases hc : isPySpace c = true
    · rw [if_pos hc] at h
      cases hrec : wsNlGreedy rest with
      | some r2 =>
        rw [hrec] at h
        injection h with h'
        subst h'
        obtain ⟨w, hw, hl⟩ := ih r2 hrec
        refine ⟨c :: w, ?_, ?_⟩
        · intro ch hch
          rcases List.mem_cons.mp hch with he | hm
          · rw [he]
            exact hc
          · exact hw ch hm
        · rw [List.cons_append, hl]
      | none =>
        rw [hrec] at h
        by_cases hnl : c = '\n'
        · rw [if_pos hnl] at h
          injection h with h'
          subst h'
          exact ⟨[], by intro ch hch; exact absurd hch (List.not_mem_nil ch),
            by rw [hnl, List.nil_append]⟩
        · rw [if_neg hnl] at h
          exact absurd h (by simp)
    · rw [if_neg hc] at h
      exact absurd h (by simp)

lemma close3_spec (l g2 : List Char) (h : close3 l = some g2) :
    ∃ tail, l = '-' :: '-' :: '-' :: tail ∧ wsNlGreedy tail = some g2 := by
  rcases l with _ | ⟨c1, _ | ⟨c2, _ | ⟨c3, tail⟩⟩⟩
  · simp [close3] at h
  · simp [close3] at h
  · simp [close3] at h
  · simp only [close3] at h
    by_cases hd : c1 = '-' ∧ c2 = '-' ∧ c3 = '-'
    · obtain ⟨h1, h2, h3⟩ := hd
      subst h1
      subst h2
      subst h3
      rw [if_pos ⟨rfl, rfl, rfl⟩] at h
      exact ⟨tail, rfl, h⟩
    · rw [if_neg hd] at h
      exact absurd h (by simp)

lemma findClose_spec : ∀ (l g1 g2 : List Char),
    findClose l = some (g1, g2) →
    ∃ w, (∀ ch ∈ w, isPySpace ch = true) ∧
      l = g1 ++ '\n' :: '-' :: '-' :: '-' :: (w ++ '\n' :: g2) := by
  intro l
  induction l with
  | nil =>
    intro g1 g2 h
    simp [findClose] at h
  | cons c rest ih =>
    intro g1 g2 h
    simp only [findClose] at h
    by_cases hc : c = '\n'
    · rw [if_pos hc] at h
      cases h3 : close3 rest with
      | some gg =>
        rw [h3] at h
        injection h with h'
        injection h' with e1 e2
        subst e1
        subst e2
        obtain ⟨tail, htail, hws⟩ := close3_spec rest gg h3
        obtain ⟨w, hw, htail2⟩ := wsNlGreedy_spec tail gg hws
        refine ⟨w, hw, ?_⟩
        rw [hc, htail, htail2]
        rfl
      | none =>
        rw [h3] at h
        cases hrec : findClose rest with
        | none =>
          rw [hrec] at h
          exact absurd h (by simp)
        | some p =>
          obtain ⟨pg1, pg2⟩ := p
          rw [hrec] at h
          simp only [Option.map_some'] at h
          injection h with h'
          injection h' with e1 e2
          subst e1
          subst e2
          obtain ⟨w, hw, hrest2⟩ := ih pg1 pg2 hrec
          refine ⟨w, hw, ?_⟩
          rw [hrest2]
          rfl
    · rw [if_neg hc] at h
      cases hrec : findClose rest with
      | none =>
        rw [hrec] at h
        exact absurd h (by simp)
      | some p =>
        obtain ⟨pg1, pg2⟩ := p
        rw [hrec] at h
        simp only [Option.map_some'] at h
        injection h with h'
        injection h' with e1 e2
        subst e1
        subst e2
        obtain ⟨w, hw, hrest2⟩ := ih pg1 pg2 hrec
        refine ⟨w, hw, ?_⟩
        rw [hrest2]
        rfl

lemma openAux_spec : ∀ (l g1 g2 : List Char), openAux l = some (g1, g2) →
    ∃ w w', (∀ ch ∈ w, isPySpace ch = true) ∧
      (∀ ch ∈ w', isPySpace ch = true) ∧
      l = w ++ '\n' ::
        (g1 ++ '\n' :: '-' :: '-' :: '-' :: (w' ++ '\n' :: g2)) := by
  intro l
  induction l with
  | nil =>
    intro g1 g2 h
    simp [openAux] at h
  | cons c rest ih =>
    intro g1 g2 h
    simp only [openAux] at h
    by_cases hc : isPySpace c = true
    · rw [if_pos hc] at h
      cases hrec : openAux rest with
      | some res =>
        rw [hrec] at h
        obtain ⟨rg1, rg2⟩ := res
        injection h with h'
        injection h' with e1 e2
        subst e1
        subst e2
        obtain ⟨w, w', hw, hw', hrest⟩ := ih rg1 rg2 hrec
        refine ⟨c :: w, w', ?_, hw', ?_⟩
        · intro ch hch
          rcases List.mem_cons.mp hch with he | hm
          · rw [he]
            exact hc
          · exact hw ch hm
        · rw [List.cons_append, hrest]
      | none =>
        rw [hrec] at h
        by_cases hnl : c = '\n'
        · rw [if_pos hnl] at h
          obtain ⟨w', hw', hrest⟩ := findClose_spec rest g1 g2 h
          refine ⟨[], w', by intro ch hch; exact absurd hch (List.not_mem_nil ch),
            hw', ?_⟩
          rw [hnl, hrest]
          rfl
        · rw [if_neg hnl] at h
          exact absurd h (by simp)
    · rw [if_neg hc] at h
      exact absurd h (by simp)

/-- A successful `FRONTMATTER_PATTERN` match decomposes the content as:
opening delimiter line (with optional trailing whitespace), the metadata
block (group 1), closing delimiter line, then exactly the remaining text
(group 2). -/
lemma frontmatterMatch_decomp (content g1 g2 : String)
    (h : frontmatterMatch content = some (g1, g2)) :
    ∃ w w', (∀ ch ∈ w, isPySpace ch = true) ∧
      (∀ ch ∈ w', isPySpace ch = true) ∧
      content.toList = '-' :: '-' :: '-' ::
        (w ++ '\n' :: (g1.toList ++ '\n' :: '-' :: '-' :: '-' ::
          (w' ++ '\n' :: g2.toList))) := by
  unfold frontmatterMatch at h
  cases hl : content.toList with
  | nil =>
    rw [hl] at h
    exact absurd h (by simp)
  | cons c1 t1 =>
    cases t1 with
    | nil =>
      rw [hl] at h
      exact absurd h (by simp)
    | cons c2 t2 =>
      cases t2 with
      | nil =>
        rw [hl] at h
        exact absurd h (by simp)
      | cons c3 rest =>
        rw [hl] at h
        simp only [] at h
        by_cases hd : c1 = '-' ∧ c2 = '-' ∧ c3 = '-'
        · obtain ⟨e1, e2, e3⟩ := hd
          subst e1
          subst e2
          subst e3
          rw [if_pos ⟨rfl, rfl, rfl⟩] at h
          cases ho : openAux rest with
          | none =>
            rw [ho] at h
            exact absurd h (by simp)
          | some res =>
            obtain ⟨rg1, rg2⟩ := res
            rw [ho] at h
            injection h with h'
            injection h' with e4 e5
            obtain ⟨w, w', hw, hw', hrest⟩ := openAux_spec rest rg1 rg2 ho
            refine ⟨w, w', hw, hw', ?_⟩
            rw [← e4, ← e5]
            rw [hrest]
            rfl
        · rw [if_neg hd] at h
          exact absurd h (by simp)

lemma ite_none_eq_some {α : Type} {c : Prop} [Decidable c] {x : Option α}
    {b : α} : (if c then none else x) = some b ↔ ¬ c ∧ x = some b := by
  by_cases h : c <;> simp [h]

set_option maxHeartbeats 2000000 in
set_option maxRecDepth 8000 in
/-- A record built by the `Skill(...)` constructor carries the `content`
argument unchanged. -/
lemma buildSkill_content (ctx : Ctx) (nameV descV : YVal) (content : String)
    (path folder_path : List String) (metadata : List (String × YVal))
    (deps : List YVal) (sk : Skill)
    (h : buildSkill ctx nameV descV content path folder_path metadata deps =
      some sk) : sk.content = content := by
  unfold buildSkill at h
  split at h
  · obtain ⟨-, h⟩ := ite_none_eq_some.mp h
    obtain ⟨-, h⟩ := ite_none_eq_some.mp h
    obtain ⟨-, h⟩ := ite_none_eq_some.mp h
    injection h with h'
    rw [← h']
  all_goals exact absurd h (by simp)

/-- A successful `_parse_frontmatter` presupposes a successful regex match
with the same markdown remainder. -/
lemma parse_frontmatter_match (c : String) (m : List (String × YVal))
    (md : String) (h : parse_frontmatter c = some (m, md)) :
    ∃ y, frontmatterMatch c = some (y, md) := by
  unfold parse_frontmatter at h
  cases hm : frontmatterMatch c with
  | none =>
    rw [hm] at h
    exact absurd h (by simp)
  | some p =>
    obtain ⟨y, md2⟩ := p
    rw [hm] at h
    dsimp only at h
    refine ⟨y, ?_⟩
    cases hy : yamlSafeLoad y with
    | none =>
      rw [hy] at h
      exact absurd h (by simp)
    | some v =>
      cases v with
      | null =>
        rw [hy] at h
        dsimp only at h
        injection h with h'
        injection h' with e1 e2
        rw [← e2]
      | map kvs =>
        rw [hy] at h
        dsimp only at h
        injection h with h'
        injection h' with e1 e2
        rw [← e2]
      | str s =>
        rw [hy] at h
        exact absurd h (by simp)
      | int n =>
        rw [hy] at h
        exact absurd h (by simp)
      | bool b =>
        rw [hy] at h
        exact absurd h (by simp)
      | list l =>
        rw [hy] at h
        exact absurd h (by simp)

/-- A record produced by `MarkdownSkillParser.parse` has as its `content`
field exactly the strip of the regex's group 2 — the text after the
closing delimiter line of the file that was read. -/
lemma parse_content_eq (ctx : Ctx) (path : List String) (sk : Skill)
    (h : MarkdownSkillParser.parse ctx path = some sk) :
    ∃ c g1 g2, readText ctx path = some c ∧
      frontmatterMatch c = some (g1, g2) ∧ sk.content = pyStrip g2 := by
  unfold MarkdownSkillParser.parse at h
  by_cases hv : ¬ (validate_folder_structure ctx path).1 = true
  · rw [if_pos hv] at h
    exact absurd h (by simp)
  · rw [if_neg hv] at h
    cases hr : readText ctx path with
    | none =>
      rw [hr] at h
      exact absurd h (by simp)
    | some c =>
      rw [hr] at h
      dsimp only at h
      cases hf : parse_frontmatter c with
      | none =>
        rw [hf] at h
        exact absurd h (by simp)
      | some p =>
        obtain ⟨metadata, md⟩ := p
        rw [hf] at h
        dsimp only at h
        by_cases ht1 : ¬ (metaGetD metadata "name" YVal.null).truthy = true
        · rw [if_pos ht1] at h
          exact absurd h (by simp)
        · rw [if_neg ht1] at h
          by_cases ht2 :
              ¬ (metaGetD metadata "description" YVal.null).truthy = true
          · rw [if_pos ht2] at h
            exact absurd h (by simp)
          · rw [if_neg ht2] at h
            cases hb : buildSkill ctx (metaGetD metadata "name" YVal.null)
                (metaGetD metadata "description" YVal.null) (pyStrip md) path
                path.dropLast metadata
                (parse_dependencies
                  (metaGetD metadata "dependencies" (YVal.list []))) with
            | none =>
              rw [hb] at h
              exact absurd h (by simp)
            | some skill =>
              rw [hb] at h
              dsimp only at h
              by_cases hval : (skill.validate_skill ctx).1 = true
              · rw [if_pos hval] at h
                injection h with h'
                subst h'
                obtain ⟨y, hy⟩ := parse_frontmatter_match c metadata md hf
                exact ⟨c, y, md, rfl, hy,
                  buildSkill_content ctx _ _ _ _ _ _ _ _ hb⟩
              · rw [if_neg hval] at h
                exact absurd h (by simp)

/-- A file whose text after the closing delimiter itself contains a `---`
line and a copy of metadata text. -/
def cexContent : String :=
  "---\nname: n1\ndescription: d\n---\nbody\n---\nname: n1\n"

/-- Root holding the C3 counterexample file. -/
def ctx3 : Ctx :=
  ⟨["skills"], some (.dir [("cex", .dir [("SKILL.md", .file cexContent)])])⟩

/-- The record `parse` produces for `cexContent`. -/
def cexSkill : Skill :=
  { name := "n1", description := "d", content := "body\n---\nname: n1",
    path := ["skills", "cex", "SKILL.md"], folder_path := ["skills", "cex"],
    version := "1.0.0", author := none, created := none, updated := none,
    dependencies := [], tags := [], category := none, complexity := none,
    when_to_use := [], related_skills := [], has_examples := false,
    example_files := [] }

/-- The record `parse` produces for folder `alpha` of `tree7`. -/
def alphaSkill : Skill :=
  { name := "alpha", description := "A", content := "Alpha body",
    path := ["skills", "alpha", "SKILL.md"],
    folder_path := ["skills", "alpha"],
    version := "1.0.0", author := none, created := none, updated := none,
    dependencies := [], tags := [], category := none, complexity := none,
    when_to_use := [], related_skills := [], has_examples := false,
    example_files := [] }

/-! ### Debounce lemmas -/

lemma dictInsert_keys_mem {α : Type} (d : List (String × α)) (k : String)
    (v : α) : ∀ k', k' ∈ (dictInsert d k v).map Prod.fst →
      k' = k ∨ k' ∈ d.map Prod.fst := by
  induction d with
  | nil =>
    intro k' h
    simp [dictInsert] at h
    exact Or.inl h
  | cons kv rest ih =>
    obtain ⟨k0, v0⟩ := kv
    intro k' h
    by_cases h0 : k0 = k
    · simp only [dictInsert, if_pos h0] at h
      simp only [List.map_cons, List.mem_cons] at h
      rcases h with he | hm
      · exact Or.inr (by simp [he])
      · exact Or.inr (by simp [hm])
    · simp only [dictInsert, if_neg h0] at h
      simp only [List.map_cons, List.mem_cons] at h
      rcases h with he | hm
      · exact Or.inr (by simp [he])
      · rcases ih k' hm with hk | hm2
        · exact Or.inl hk
        · exact Or.inr (by simp [hm2])

lemma dictInsert_keys_nodup {α : Type} (d : List (String × α)) (k : String)
    (v : α) (h : (d.map Prod.fst).Nodup) :
    ((dictInsert d k v).map Prod.fst).Nodup := by
  induction d with
  | nil => simp [dictInsert]
  | cons kv rest ih =>
    obtain ⟨k0, v0⟩ := kv
    simp only [List.map_cons, List.nodup_cons] at h
    by_cases h0 : k0 = k
    · simp only [dictInsert, if_pos h0, List.map_cons, List.nodup_cons]
      exact h
    · simp only [dictInsert, if_neg h0, List.map_cons, List.nodup_cons]
      refine ⟨?_, ih h.2⟩
      intro hmem
      rcases dictInsert_keys_mem rest k v k0 hmem with he | hm
      · exact h0 he
      · exact h.1 hm

lemma handleEvent_timers_nodup (D : ℚ) (st : DebState) (p : String) (t : ℚ)
    (h : (st.timers.map Prod.fst).Nodup) :
    (((handleEvent D st p t).timers).map Prod.fst).Nodup := by
  unfold handleEvent fireDue
  exact dictInsert_keys_nodup _ p (t + D)
    (List.Nodup.sublist (List.Sublist.map _ (List.filter_sublist _)) h)

/-- Every processed notification sequence leaves pairwise-distinct pending
paths. -/
lemma runEvents_timers_nodup (D : ℚ) (evts : List (String × ℚ)) :
    ((runEvents D evts).timers.map Prod.fst).Nodup := by
  suffices h : ∀ (l : List (String × ℚ)) (st : DebState),
      (st.timers.map Prod.fst).Nodup →
      (((l.foldl (fun st e => handleEvent D st e.1 e.2) st).timers).map
        Prod.fst).Nodup by
    exact h evts ⟨[], []⟩ (by simp)
  intro l
  induction l with
  | nil =>
    intro st h
    exact h
  | cons e l ih =>
    intro st h
    rw [List.foldl_cons]
    exact ih _ (handleEvent_timers_nodup D st e.1 e.2 h)

lemma handleEvent_single_no_fire (D : ℚ) (p : String) (t d : ℚ)
    (f : List String) (h : ¬ d ≤ t) :
    handleEvent D ⟨[(p, d)], f⟩ p t = ⟨[(p, t + D)], f⟩ := by
  have h' : t < d := not_le.mp h
  simp [handleEvent, fireDue, dictInsert, h, h']

lemma handleEvent_single_fire (D : ℚ) (p : String) (t d : ℚ)
    (f : List String) (h : d ≤ t) :
    handleEvent D ⟨[(p, d)], f⟩ p t = ⟨[(p, t + D)], f ++ [p]⟩ := by
  simp [handleEvent, fireDue, dictInsert, h]

/-- A burst (consecutive gaps below `D`) never lets the timer fire: every
notification cancels and restarts it. -/
lemma debounce_burst_run (D : ℚ) (p : String) :
    ∀ (ts : List ℚ) (t0 : ℚ) (f : List String),
      List.Chain (fun a b => a < b ∧ b < a + D) t0 ts →
      ts.foldl (fun st t => handleEvent D st p t) ⟨[(p, t0 + D)], f⟩ =
        ⟨[(p, ts.getLastD t0 + D)], f⟩ := by
  intro ts
  induction ts with
  | nil =>
    intro t0 f _
    rfl
  | cons t ts ih =>
    intro t0 f hchain
    rw [List.chain_cons] at hchain
    obtain ⟨⟨hlt, hltD⟩, hchain'⟩ := hchain
    rw [List.foldl_cons,
      handleEvent_single_no_fire D p t (t0 + D) f (by linarith),
      ih t f hchain', List.getLastD_cons]

/-- Spaced notifications (consecutive gaps above `D`) each let the
previous timer fire before restarting. -/
lemma debounce_spaced_run (D : ℚ) (p : String) :
    ∀ (ts : List ℚ) (t0 : ℚ) (f : List String),
      List.Chain (fun a b => a + D < b) t0 ts →
      ts.foldl (fun st t => handleEvent D st p t) ⟨[(p, t0 + D)], f⟩ =
        ⟨[(p, ts.getLastD t0 + D)], f ++ ts.map (fun _ => p)⟩ := by
  intro ts
  induction ts with
  | nil =>
    intro t0 f _
    simp
  | cons t ts ih =>
    intro t0 f hchain
    rw [List.chain_cons] at hchain
    obtain ⟨hlt, hchain'⟩ := hchain
    rw [List.foldl_cons,
      handleEvent_single_fire D p t (t0 + D) f (le_of_lt hlt),
      ih t (f ++ [p]) hchain', List.getLastD_cons]
    simp

/-! ### Claim theorems -/

/-- C7: on the concrete tree with folder `alpha` holding
`{name:"alpha", description:"A"}`, folder `beta` holding
`{name:"beta", description:"B"}`, a stray sentinel file directly in the
root, and a `__pycache__` folder also containing one, `scan()` returns
exactly the map with keys `alpha` and `beta` and tallies
`loaded=2, skipped=2, failed=0`. -/
theorem scan_concrete_tree :
    (SkillScanner.scan ctx7).skills.map Prod.fst = ["alpha", "beta"] ∧
    (SkillScanner.scan ctx7).loaded = 2 ∧
    (SkillScanner.scan ctx7).skipped = 2 ∧
    (SkillScanner.scan ctx7).failed = 0 := by
  decide

/-- C8: dependency normalization. A list value passes through unchanged;
a mapping value flattens per category key — each item of a list value to
one `"category:item"` string, a scalar value to a single such string — so
`{"python":["a","b"], "system":"c"}` yields
`["python:a","python:b","system:c"]`; a value of any other shape yields the
empty list without an error. -/
theorem parse_dependencies_normalization :
    (∀ l : List YVal, parse_dependencies (YVal.list l) = l) ∧
    parse_dependencies
        (YVal.map
          [("python", YVal.list [YVal.str "a", YVal.str "b"]),
           ("system", YVal.str "c")]) =
      [YVal.str "python:a", YVal.str "python:b", YVal.str "system:c"] ∧
    (∀ (k : String) (items : List YVal) (rest : List (String × YVal)),
      parse_dependencies (YVal.map ((k, YVal.list items) :: rest)) =
        items.map (fun it => YVal.str (k ++ ":" ++ it.pyRender)) ++
          parse_dependencies (YVal.map rest)) ∧
    (∀ (k v : String) (rest : List (String × YVal)),
      parse_dependencies (YVal.map ((k, YVal.str v) :: rest)) =
        YVal.str (k ++ ":" ++ v) :: parse_dependencies (YVal.map rest)) ∧
    (∀ s : String, parse_dependencies (YVal.str s) = []) ∧
    (∀ n : Int, parse_dependencies (YVal.int n) = []) ∧
    (∀ b : Bool, parse_dependencies (YVal.bool b) = []) ∧
    parse_dependencies YVal.null = [] := by
  refine ⟨fun l => rfl, rfl, fun k items rest => ?_, fun k v rest => rfl,
    fun s => rfl, fun n => rfl, fun b => rfl, rfl⟩
  simp [parse_dependencies]

/-- C10: calling `start()` on a stopped watcher whose skills directory does
not exist returns without raising and without beginning monitoring; the
watcher stays out of the Running state and `is_watching()` remains false.
(The model's `start` is a total function — the source logs an error and
returns.) -/
theorem watcher_start_missing_dir (ctx : Ctx) (w : SkillWatcher)
    (hs : w.watching = false) (hd : pathExists ctx w.skills_dir = false) :
    SkillWatcher.start ctx w = w ∧
    (SkillWatcher.start ctx w).is_watching = false := by
  have hstart : SkillWatcher.start ctx w = w := by
    unfold SkillWatcher.start
    rw [hs, hd]
    simp
  exact ⟨hstart, by rw [hstart]; exact hs⟩

/-- Witness for C10 at a concrete stopped watcher over a missing root. -/
theorem watcher_start_missing_dir_witness :
    SkillWatcher.start ⟨["skills"], none⟩ ⟨["skills"], false, false⟩ =
        ⟨["skills"], false, false⟩ ∧
    (SkillWatcher.start ⟨["skills"], none⟩
        ⟨["skills"], false, false⟩).is_watching = false :=
  watcher_start_missing_dir ⟨["skills"], none⟩ ⟨["skills"], false, false⟩
    rfl rfl

/-- C4: `add(record)` runs the record's full structural validation and
raises exactly when it fails (modelled as `Except.error`; the raise happens
before any mutation, so the stored mapping is unchanged); on success the
record is inserted under its name, overwriting any record of the same name
(last-writer-wins) and leaving every other name's entry unchanged. -/
theorem repository_add_spec (ctx : Ctx) (repo : SkillRepository) (s : Skill) :
    ((s.validate_skill ctx).1 = false →
      SkillRepository.add ctx repo s =
        Except.error ("Cannot add invalid skill " ++ s.name)) ∧
    ((s.validate_skill ctx).1 = true →
      SkillRepository.add ctx repo s =
          Except.ok ⟨dictInsert repo.skills s.name s⟩ ∧
        SkillRepository.get ⟨dictInsert repo.skills s.name s⟩ s.name =
          some s ∧
        ∀ n, n ≠ s.name →
          SkillRepository.get ⟨dictInsert repo.skills s.name s⟩ n =
            SkillRepository.get repo n) := by
  constructor
  · intro h
    simp [SkillRepository.add, h]
  · intro h
    refine ⟨?_, dictGet_insert_self repo.skills s.name s,
      fun n hn => dictGet_insert_other repo.skills s.name n s hn⟩
    simp [SkillRepository.add, h]

/-- Witness for C4: adding the concrete valid record to the empty
repository succeeds and stores it under its name. -/
theorem repository_add_spec_witness :
    SkillRepository.add ctxRepo ⟨[]⟩ skillW =
      Except.ok ⟨dictInsert ([] : List (String × Skill)) skillW.name skillW⟩ :=
  ((repository_add_spec ctxRepo ⟨[]⟩ skillW).2 (by decide)).1

/-- C3 counterexample: the parser accepts a file whose text after the
closing delimiter contains a `---` marker line and a verbatim copy of
metadata text, and the record's body contains both; moreover the body is
the *strip* of the text after the closing delimiter, not that text itself
(the trailing newline is removed). This refutes the claim's "never
contains" conjuncts and its "exactly the text after" conjunct. -/
theorem parse_body_delimiter_cex :
    MarkdownSkillParser.parse ctx3 ["skills", "cex", "SKILL.md"] =
      some cexSkill ∧
    "---" ∈ strSplitOnChar '\n' cexSkill.content ∧
    subListAt ("name: n1").toList cexSkill.content.toList = true ∧
    cexSkill.content ≠ "body\n---\nname: n1\n" := by
  decide

/-- C3 amended: for every file content the parser accepts, the content
decomposes as an opening `---` delimiter line (with optional trailing
whitespace), the metadata block (group 1), a closing `---` delimiter line,
and a remainder (group 2); the record's body is exactly the strip of that
remainder — the text after the closing delimiter line. (The delimiter
lines and the metadata block preceding the closing delimiter are not part
of the body, but the body may itself repeat such text when the remainder
does.) -/
theorem parse_body_after_close_amended (ctx : Ctx) (path : List String)
    (sk : Skill) (h : MarkdownSkillParser.parse ctx path = some sk) :
    ∃ (c g1 g2 : String) (w w' : List Char),
      readText ctx path = some c ∧
      frontmatterMatch c = some (g1, g2) ∧
      (∀ ch ∈ w, isPySpace ch = true) ∧
      (∀ ch ∈ w', isPySpace ch = true) ∧
      c.toList = '-' :: '-' :: '-' ::
        (w ++ '\n' :: (g1.toList ++ '\n' :: '-' :: '-' :: '-' ::
          (w' ++ '\n' :: g2.toList))) ∧
      sk.content = pyStrip g2 := by
  obtain ⟨c, g1, g2, hr, hm, hcont⟩ := parse_content_eq ctx path sk h
  obtain ⟨w, w', hw, hw', hdec⟩ := frontmatterMatch_decomp c g1 g2 hm
  exact ⟨c, g1, g2, w, w', hr, hm, hw, hw', hdec, hcont⟩

/-- Witness for the amended C3 at the concrete `alpha` file. -/
theorem parse_body_after_close_amended_witness :
    ∃ (c g1 g2 : String) (w w' : List Char),
      readText ctx7 ["skills", "alpha", "SKILL.md"] = some c ∧
      frontmatterMatch c = some (g1, g2) ∧
      (∀ ch ∈ w, isPySpace ch = true) ∧
      (∀ ch ∈ w', isPySpace ch = true) ∧
      c.toList = '-' :: '-' :: '-' ::
        (w ++ '\n' :: (g1.toList ++ '\n' :: '-' :: '-' :: '-' ::
          (w' ++ '\n' :: g2.toList))) ∧
      alphaSkill.content = pyStrip g2 :=
  parse_body_after_close_amended ctx7 ["skills", "alpha", "SKILL.md"]
    alphaSkill (by decide)

/-- C5 counterexample: `search` guards each filter with Python truthiness,
so a category filter provided as the empty string is skipped: on a
repository whose only record has `category = None`, `search(category="")`
returns that record, while exact-match semantics would return nothing —
refuting the claim for that filter combination. -/
theorem search_empty_category_cex :
    SkillRepository.search repoR none (some "") none none = [skillR] ∧
    skillR.category ≠ some "" := by
  decide

/-- C5 amended: for every repository state and filter combination, `search`
returns the name-sorted sequence of exactly those records satisfying the
conjunction of all provided filters — `query` as case-insensitive substring
of name or description, `category`/`complexity` exact, `tag` membership —
with the amendment that a filter provided as the empty string counts as
not provided; with no filters, `search` equals `getAll`. -/
theorem search_filters_amended (repo : SkillRepository)
    (q c t x : Option String) :
    SkillRepository.search repo q c t x =
      List.insertionSort (keyLe Skill.name)
        ((repo.skills.map Prod.snd).filter (searchMatches q c t x)) ∧
    SkillRepository.search repo none none none none = repo.get_all ∧
    List.Sorted (keyLe Skill.name) (SkillRepository.search repo q c t x) ∧
    (∀ s, s ∈ SkillRepository.search repo q c t x ↔
      s ∈ repo.skills.map Prod.snd ∧ searchMatches q c t x s = true) := by
  have hmain : SkillRepository.search repo q c t x =
      List.insertionSort (keyLe Skill.name)
        ((repo.skills.map Prod.snd).filter (searchMatches q c t x)) := by
    unfold SkillRepository.search
    dsimp only
    rw [filter_stage q, filter_stage c, filter_stage t, filter_stage x,
      List.filter_filter, List.filter_filter, List.filter_filter]
    refine congrArg (List.insertionSort (keyLe Skill.name))
      (List.filter_congr ?_)
    intro s _
    cases q <;> cases c <;> cases t <;> cases x <;>
      simp [searchMatches, Bool.and_comm, Bool.and_left_comm, Bool.and_assoc]
  refine ⟨hmain, rfl, ?_, ?_⟩
  · rw [hmain]
    exact List.sorted_insertionSort (keyLe Skill.name) _
  · intro s
    rw [hmain]
    rw [(List.perm_insertionSort (keyLe Skill.name) _).mem_iff]
    exact List.mem_filter

/-- Witness for the amended C5 on the concrete one-record repository with
a tag filter. -/
theorem search_filters_amended_witness :
    SkillRepository.search repoR none none (some "missing") none =
      List.insertionSort (keyLe Skill.name)
        ((repoR.skills.map Prod.snd).filter
          (searchMatches none none (some "missing") none)) :=
  (search_filters_amended repoR none none (some "missing") none).1

/-- C1: parse-failure isolation. The parser is injected into the scanner;
in the model it is any total function to `Option Skill` — every failure
mode of `MarkdownSkillParser.parse` returns `None` rather than raising.
If the sentinel file of one eligible folder fails to parse, the scan still
completes, that folder contributes no entry, it is counted once in the
`failed` tally, and the record map and remaining tallies are exactly those
of the same tree without the failing folder. -/
theorem scan_parse_failure_isolated (P : List String → Option Skill)
    (root : List String) (l₁ l₂ : List (String × FSEntry)) (fn : String)
    (fkids : List (String × FSEntry))
    (hnodup : ((l₁ ++ (fn, FSEntry.dir fkids) :: l₂).map Prod.fst).Nodup)
    (hvalid : is_valid_skill_folder_name fn = true)
    (hsent : (find_skill_file fkids).isSome = true)
    (hfail : P (root ++ [fn, "SKILL.md"]) = none) :
    (scanWith P root (some (.dir (l₁ ++ (fn, .dir fkids) :: l₂)))).skills =
      (scanWith P root (some (.dir (l₁ ++ l₂)))).skills ∧
    (scanWith P root (some (.dir (l₁ ++ (fn, .dir fkids) :: l₂)))).failed =
      (scanWith P root (some (.dir (l₁ ++ l₂)))).failed + 1 ∧
    (scanWith P root (some (.dir (l₁ ++ (fn, .dir fkids) :: l₂)))).loaded =
      (scanWith P root (some (.dir (l₁ ++ l₂)))).loaded ∧
    (scanWith P root (some (.dir (l₁ ++ (fn, .dir fkids) :: l₂)))).skipped =
      (scanWith P root (some (.dir (l₁ ++ l₂)))).skipped := by
  obtain ⟨A, B, hAB, hab2⟩ :=
    insertionSort_middle Prod.fst l₁ l₂ (fn, .dir fkids) hnodup
  have hbig : scanWith P root (some (.dir (l₁ ++ (fn, .dir fkids) :: l₂))) =
      { scanWith P root (some (.dir (l₁ ++ l₂))) with
          failed := (scanWith P root (some (.dir (l₁ ++ l₂)))).failed + 1 } := by
    simp only [scanWith]
    rw [hAB, hab2, List.foldl_append, List.foldl_append, List.foldl_cons]
    rw [scanStep_failing P root _ fn fkids hvalid hsent hfail]
    exact scanFold_failed_shift P root B _
  rw [hbig]
  exact ⟨rfl, rfl, rfl, rfl⟩

/-- Witness for C1: a one-folder tree whose parse fails, against the empty
tree. -/
theorem scan_parse_failure_isolated_witness :
    (scanWith (fun _ => none) ["skills"]
        (some (.dir [("f", .dir [("SKILL.md", .file "x")])]))).skills =
      (scanWith (fun _ => none) ["skills"] (some (.dir []))).skills ∧
    (scanWith (fun _ => none) ["skills"]
        (some (.dir [("f", .dir [("SKILL.md", .file "x")])]))).failed =
      (scanWith (fun _ => none) ["skills"] (some (.dir []))).failed + 1 ∧
    (scanWith (fun _ => none) ["skills"]
        (some (.dir [("f", .dir [("SKILL.md", .file "x")])]))).loaded =
      (scanWith (fun _ => none) ["skills"] (some (.dir []))).loaded ∧
    (scanWith (fun _ => none) ["skills"]
        (some (.dir [("f", .dir [("SKILL.md", .file "x")])]))).skipped =
      (scanWith (fun _ => none) ["skills"] (some (.dir []))).skipped :=
  scan_parse_failure_isolated (fun _ => none) ["skills"] [] []
    "f" [("SKILL.md", .file "x")] (by decide) (by decide) (by decide) rfl

/-- C9: scan is deterministic and idempotent. The result is a pure
function of the tree — in particular, any two directory listings that are
permutations of each other (the on-disk order is arbitrary; the source
sorts it) produce identical results — and a missing root or a root that is
not a directory yields the empty result with zero tallies. -/
theorem scan_deterministic (P : List String → Option Skill)
    (root : List String) (l₁ l₂ : List (String × FSEntry)) (c : String)
    (hp : l₁.Perm l₂) (hn : (l₁.map Prod.fst).Nodup) :
    scanWith P root (some (.dir l₁)) = scanWith P root (some (.dir l₂)) ∧
    scanWith P root none = ⟨[], 0, 0, 0⟩ ∧
    scanWith P root (some (.file c)) = ⟨[], 0, 0, 0⟩ := by
  refine ⟨?_, rfl, rfl⟩
  simp only [scanWith]
  rw [insertionSort_keyLe_eq_of_perm Prod.fst hp hn]

/-- Witness for C9: two listing orders of a two-folder tree. -/
theorem scan_deterministic_witness :
    scanWith (fun _ => none) ["skills"]
        (some (.dir [("b", .dir []), ("a", .dir [])])) =
      scanWith (fun _ => none) ["skills"]
        (some (.dir [("a", .dir []), ("b", .dir [])])) :=
  (scan_deterministic (fun _ => none) ["skills"]
      [("b", .dir []), ("a", .dir [])] [("a", .dir []), ("b", .dir [])] ""
      (List.Perm.swap ("a", FSEntry.dir []) ("b", FSEntry.dir []) [])
      (by decide)).1

/-- C6: debounce discipline of `SkillFileHandler`, over the timed
transition model. (a) After any accepted notification sequence, at most
one pending timer exists per path; a re-arrival for a pending path cancels
and restarts the timer (the map update replaces its deadline — conjunct
(e)). (b) `N` accepted notifications for one path, each arriving less than
`D` after the previous, produce exactly one callback invocation after
quiescence. (c) `N` notifications spaced more than `D` apart produce `N`
invocations. (d) A fired timer's entry is removed from the pending map:
settling leaves no timers, and `fireDue` keeps exactly the not-yet-due
entries. -/
theorem debounce_discipline (D : ℚ) (p : String) (t0 : ℚ)
    (r1 r2 : List ℚ) (evts : List (String × ℚ))
    (hb : List.Chain (fun a b => a < b ∧ b < a + D) t0 r1)
    (hs : List.Chain (fun a b => a + D < b) t0 r2) :
    ((runEvents D evts).timers.map Prod.fst).Nodup ∧
    (settleAll (runEvents D ((t0 :: r1).map (fun t => (p, t))))).fired =
      [p] ∧
    (settleAll (runEvents D ((t0 :: r2).map (fun t => (p, t))))).fired =
      List.replicate (t0 :: r2).length p ∧
    (settleAll (runEvents D evts)).timers = [] ∧
    (∀ (st : DebState) (pp : String) (t : ℚ),
      dictGet (handleEvent D st pp t).timers pp = some (t + D)) ∧
    (∀ (st : DebState) (t : ℚ) (e : String × ℚ),
      e ∈ (fireDue t st).timers ↔ e ∈ st.timers ∧ ¬ e.2 ≤ t) := by
  have hrun1 : runEvents D ((t0 :: r1).map (fun t => (p, t))) =
      ⟨[(p, r1.getLastD t0 + D)], []⟩ := by
    unfold runEvents
    rw [List.map_cons, List.foldl_cons, List.foldl_map]
    exact debounce_burst_run D p r1 t0 [] hb
  have hrun2 : runEvents D ((t0 :: r2).map (fun t => (p, t))) =
      ⟨[(p, r2.getLastD t0 + D)], r2.map (fun _ => p)⟩ := by
    unfold runEvents
    rw [List.map_cons, List.foldl_cons, List.foldl_map]
    exact debounce_spaced_run D p r2 t0 [] hs
  refine ⟨runEvents_timers_nodup D evts, ?_, ?_, rfl, ?_, ?_⟩
  · rw [hrun1]
    rfl
  · rw [hrun2]
    show r2.map (fun _ => p) ++ [p] = List.replicate (r2.length + 1) p
    rw [List.map_const', List.replicate_succ']
  · intro st pp t
    exact dictGet_insert_self _ pp (t + D)
  · intro st t e
    simp [fireDue, List.mem_filter]

/-- Witness for C6: a two-notification burst yields one callback; two
spaced notifications yield two. -/
theorem debounce_discipline_witness :
    ((runEvents 2 [("x", 0), ("y", 0)]).timers.map Prod.fst).Nodup ∧
    (settleAll (runEvents 2 (((0 : ℚ) :: [1]).map
      (fun t => ("x", t))))).fired = ["x"] ∧
    (settleAll (runEvents 2 (((0 : ℚ) :: [3]).map
      (fun t => ("x", t))))).fired =
      List.replicate ((0 : ℚ) :: [3]).length "x" ∧
    (settleAll (runEvents 2 [("x", 0), ("y", 0)])).timers = [] ∧
    (∀ (st : DebState) (pp : String) (t : ℚ),
      dictGet (handleEvent 2 st pp t).timers pp = some (t + 2)) ∧
    (∀ (st : DebState) (t : ℚ) (e : String × ℚ),
      e ∈ (fireDue t st).timers ↔ e ∈ st.timers ∧ ¬ e.2 ≤ t) :=
  debounce_discipline 2 "x" 0 [1] [3] [("x", 0), ("y", 0)]
    (List.Chain.cons (by norm_num) List.Chain.nil)
    (List.Chain.cons (by norm_num) List.Chain.nil)

/-- C2 counterexample: `validate_folder_structure` (the file classifier of
parsers/base.py) has no leading-underscore check, so the sentinel file of
the existing depth-1 folder `_private` is accepted, although the folder's
base name starts with an underscore — refuting the claim that such paths
are always rejected. -/
theorem classifyFile_underscore_accepted_cex :
    strStartsWith "_private" "_" = true ∧
    (validate_folder_structure ctxUnderscore
        ["skills", "_private", "SKILL.md"]).1 = true := by
  decide

/-- C2 amended: for every root and file path, if the containing folder is
more than one directory level below the root, or its base name starts with
`'.'`, or its base name is in the fixed ignored-name set, then
`validate_folder_structure` rejects, independent of the file's content.
(The `'_'` disjunct of the original claim does not hold of this function:
only the scanner's and watcher's folder filters test for it.) -/
theorem classifyFile_rejects_amended (ctx : Ctx) (p : List String)
    (h : (∃ rest : List String,
            p.dropLast = ctx.root ++ rest ∧ 2 ≤ rest.length) ∨
         strStartsWith (pathName p.dropLast) "." = true ∨
         pathName p.dropLast ∈ IGNORED_FOLDERS) :
    (validate_folder_structure ctx p).1 = false := by
  unfold validate_folder_structure
  dsimp only
  split_ifs with h1 h2 h3 h4 h5 h6 h7
  any_goals rfl
  exfalso
  rcases h with ⟨rest, hfr, hlen⟩ | hdot | hmem
  · have h3' : p.dropLast.dropLast = ctx.root := not_not.mp h3
    rw [hfr] at h3'
    have hlength := congrArg List.length h3'
    rw [List.length_dropLast, List.length_append] at hlength
    omega
  · rw [hdot] at h4
    exact h4 rfl
  · exact h5 hmem

/-- Witness for the amended C2 at a concrete hidden folder. -/
theorem classifyFile_rejects_amended_witness :
    (validate_folder_structure ⟨["skills"], none⟩
        ["skills", ".hidden", "SKILL.md"]).1 = false :=
  classifyFile_rejects_amended ⟨["skills"], none⟩
    ["skills", ".hidden", "SKILL.md"] (Or.inr (Or.inl (by decide)))

end McpSkills
